import Mathlib

/-!
Verification development for the web-scraping repository
(src/email_scraper.py and src/linkdin.py).

The Python source is shallowly embedded below: pure helper functions become
Lean functions on lists of characters, the Scrapy spider crawl loop becomes a
fuel-bounded step function on an explicit state, and the per-site result
aggregation becomes a pure map over the seed list with an elapsed-time oracle.
Wherever the Python code relies on a set, the embedding uses either a list
with insertion-if-absent (when membership and duplication are the observed
facts) or a Finset (for the accumulated email set); the iteration order of a
Python set is unspecified, so any order-sensitive reading of a set is
documented at the definition that models it.
-/

/-- Boolean test that the first list is an initial segment of the second,
written by direct recursion so that the kernel can evaluate it. -/
def leadsWith : List Char → List Char → Bool
  | [], _ => true
  | _ :: _, [] => false
  | a :: as, b :: bs => a == b && leadsWith as bs

/-- Models the Python substring test on character lists: the needle occurs
contiguously somewhere in the haystack. An empty needle always occurs. -/
def occursIn (needle : List Char) : List Char → Bool
  | [] => leadsWith needle []
  | c :: rest => leadsWith needle (c :: rest) || occursIn needle rest

/-- Models the Python expression needle in hay on strings. -/
def strIn (needle hay : String) : Bool :=
  occursIn needle.toList hay.toList

/-- Models the Python str.startswith test. -/
def pyStartsWith (s pre : String) : Bool :=
  leadsWith pre.toList s.toList

/-- Models adding an element to a Python set, rendered as a list that keeps
the first insertion position: the element is appended only when absent. -/
def insertNew {α : Type} [DecidableEq α] (x : α) (l : List α) : List α :=
  if x ∈ l then l else l ++ [x]

/-- Body of pyRemove, structurally recursive on a fuel argument so that the
kernel can evaluate it; every step consumes at least one character, so a fuel
equal to the length of the text suffices. -/
def pyRemoveAux (pat : List Char) : Nat → List Char → List Char
  | 0, l => l
  | _, [] => []
  | fuel + 1, c :: rest =>
    if pat ≠ [] ∧ leadsWith pat (c :: rest) = true then
      pyRemoveAux pat fuel (List.drop (pat.length - 1) rest)
    else
      c :: pyRemoveAux pat fuel rest

/-- Models the Python str.replace with an empty replacement: non-overlapping
occurrences of the pattern are removed scanning left to right. -/
def pyRemove (pat l : List Char) : List Char :=
  pyRemoveAux pat l.length l

/-- Body of pySplit, structurally recursive on a fuel argument so that the
kernel can evaluate it. -/
def pySplitAux (sep : List Char) : Nat → List Char → List (List Char)
  | 0, l => [l]
  | _, [] => [[]]
  | fuel + 1, c :: rest =>
    if sep ≠ [] ∧ leadsWith sep (c :: rest) = true then
      [] :: pySplitAux sep fuel (List.drop (sep.length - 1) rest)
    else
      match pySplitAux sep fuel rest with
      | [] => [[c]]
      | f :: fs => (c :: f) :: fs

/-- Models the Python str.split on a non-empty separator: the list of fields
produced by cutting at each non-overlapping occurrence, scanning left to
right. Always returns at least one field. -/
def pySplit (sep l : List Char) : List (List Char) :=
  pySplitAux sep l.length l

/-- Models the Python ", ".join style joining of a list of strings. -/
def joinWith (sep : String) : List String → String
  | [] => ""
  | [x] => x
  | x :: y :: rest => x ++ sep ++ joinWith sep (y :: rest)

/-- Models the Python str.lower for the ASCII range, which is the case the
source applies it to (URLs). -/
def toLowerStr (s : String) : String :=
  ⟨s.toList.map Char.toLower⟩

/-! URL dissection, modelling the parts of urllib.parse used by the source. -/

/-- Splits a character list at the first occurrence of the marker ://,
returning the parts before and after it, or none when the marker is absent. -/
def splitAtMarker : List Char → Option (List Char × List Char)
  | [] => none
  | c :: rest =>
    if leadsWith (':' :: '/' :: '/' :: []) (c :: rest) = true then
      some ([], rest.drop 2)
    else
      match splitAtMarker rest with
      | some (a, b) => some (c :: a, b)
      | none => none

/-- Scheme of a URL of the form scheme://rest, empty when no :// is present. -/
def schemeOf (u : String) : String :=
  match splitAtMarker u.toList with
  | some (s, _) => ⟨s⟩
  | none => ""

/-- Character that terminates the authority component of a URL. -/
def isAuthorityEnd (c : Char) : Bool :=
  c == '/' || c == '?' || c == '#'

/-- Models urllib.parse.urlparse(u).netloc for URLs carrying an explicit
scheme, the only shape the source feeds to it: the text between :// and the
first slash, question mark or hash. URLs without :// yield the empty netloc,
as urlparse does for plain paths. -/
def netlocOf (u : String) : String :=
  match splitAtMarker u.toList with
  | some (_, r) => ⟨r.takeWhile (fun c => !(isAuthorityEnd c))⟩
  | none => ""

/-- Path-and-after of a URL with a scheme: everything from the first slash,
question mark or hash following the authority. -/
def pathRestOf (u : String) : List Char :=
  match splitAtMarker u.toList with
  | some (_, r) => r.dropWhile (fun c => !(isAuthorityEnd c))
  | none => u.toList

/-- Longest initial segment of a path ending in a slash; empty when the path
contains no slash. Used for resolving relative references. -/
def dirOf (p : List Char) : List Char :=
  (p.reverse.dropWhile (fun c => c ≠ '/')).reverse

/-- Recognises the tail of a URL scheme: letters, digits, plus, minus or dot
up to a colon. -/
def schemeTail : List Char → Bool
  | [] => false
  | c :: rest =>
    if c == ':' then true
    else (c.isAlpha || c.isDigit || c == '+' || c == '-' || c == '.') && schemeTail rest

/-- Recognises a reference that begins with an explicit scheme, as
urllib.parse does before treating a reference as relative. -/
def startsWithScheme : List Char → Bool
  | [] => false
  | c :: rest => c.isAlpha && schemeTail rest

/-- Models urllib.parse.urljoin for the reference shapes that occur in this
repository: a reference with an explicit scheme is returned unchanged, a
protocol-relative reference takes the base scheme, a root-relative reference
takes the base scheme and authority, a fragment-only reference replaces the
base fragment, and any other reference replaces the final path segment of the
base. Dot-segment normalisation and same-scheme partial references are not
modelled; no call site in the source depends on them. -/
def urljoin (base link : String) : String :=
  if link = "" then base
  else if startsWithScheme link.toList then link
  else if pyStartsWith link "//" then schemeOf base ++ ":" ++ link
  else if pyStartsWith link "/" then schemeOf base ++ "://" ++ netlocOf base ++ link
  else if pyStartsWith link "#" then (⟨base.toList.takeWhile (fun c => c ≠ '#')⟩ : String) ++ link
  else
    schemeOf base ++ "://" ++ netlocOf base ++
      (let d := dirOf (pathRestOf base)
       if d = [] then "/" ++ link else (⟨d⟩ : String) ++ link)

/-- Models the spider initialiser expression
start_url.split("//")[-1].split("/")[0] from src/email_scraper.py, the
domain-scope string of a crawl job. -/
def allowedDomainOf (startUrl : String) : String :=
  ⟨((pySplit ('/' :: '/' :: []) startUrl.toList).getLastD []).takeWhile (fun c => c ≠ '/')⟩

/-! The email regular expression of src/email_scraper.py, embedded as an
explicit scanner with the same matching discipline as Python re.findall on
this particular pattern: leftmost scanning, greedy runs, backtracking of the
domain run in front of the dot, non-overlapping continuation after a match. -/

/-- Characters admitted in the local part of the pattern. -/
def isLocalChar (c : Char) : Bool :=
  c.isAlpha || c.isDigit || c == '.' || c == '_' || c == '%' || c == '+' || c == '-'

/-- Characters admitted in the domain run of the pattern. -/
def isDomainChar (c : Char) : Bool :=
  c.isAlpha || c.isDigit || c == '.' || c == '-'

/-- Backtracking search for the split of the text after the at sign into a
non-empty domain run, a literal dot and a final run of at least two letters.
Tries the longest domain run first, exactly as the greedy pattern does, and
returns the total number of characters the pattern consumes after the at
sign. The first argument is the text after the at sign, the second the
length of the domain run still allowed. -/
def tldSplit (rest : List Char) : Nat → Option Nat
  | 0 => none
  | k + 1 =>
    match rest.drop (k + 1) with
    | '.' :: tl =>
      let t := (tl.takeWhile Char.isAlpha).length
      if 2 ≤ t then some (k + 1 + 1 + t) else tldSplit rest k
    | _ => tldSplit rest k

/-- Attempts to match the email pattern anchored at the start of the list,
returning the length of the match. The local run is maximal; because the at
sign is not a local character, a shorter local run can never turn a failure
into a success, so no backtracking is needed there. -/
def tryMatch (l : List Char) : Option Nat :=
  let lrun := (l.takeWhile isLocalChar).length
  if lrun = 0 then none
  else
    match l.drop lrun with
    | '@' :: rest =>
      match tldSplit rest (rest.takeWhile isDomainChar).length with
      | some n => some (lrun + 1 + n)
      | none => none
    | _ => none

/-- Scanner body: tries to match at every position, emitting each match and
resuming after it. The fuel starts at the length of the text; every step
either consumes a character or consumes a non-empty match, so this fuel is
always sufficient. -/
def scanAux : Nat → List Char → List (List Char)
  | 0, _ => []
  | _, [] => []
  | fuel + 1, c :: rest =>
    match tryMatch (c :: rest) with
    | some n => (c :: rest).take n :: scanAux fuel ((c :: rest).drop n)
    | none => scanAux fuel rest

/-- All matches of the email pattern in the text, in scanning order. -/
def scanFrom (l : List Char) : List (List Char) :=
  scanAux l.length l

/-- Embeds extract_emails of src/email_scraper.py: the matches of the email
pattern with duplicates removed. Python materialises list(set(...)), whose
iteration order is unspecified; dedup is used as one canonical order, which
keeps the membership and duplicate-freeness facts faithful. -/
def extract_emails (html_content : String) : List String :=
  ((scanFrom html_content.toList).map (fun cs => (⟨cs⟩ : String))).dedup

/-! The crawl of EnhancedEmailSpider from src/email_scraper.py, embedded as a
fuel-bounded loop over an explicit frontier. Scrapy schedules requests
concurrently; the embedding processes the frontier one entry at a time, which
is faithful to every per-URL fact stated below because the parse callback of
the source touches only job-owned state. -/

/-- A fetched page as the parse callback observes it: the response text and
the href values of its anchors. -/
structure Page where
  content : String
  links : List String

/-- The keyword list of the parse callback of src/email_scraper.py. -/
def keywordList : List String :=
  ["contact", "about", "write-for-us", "support"]

/-- Models the keyword test of the parse callback: some keyword occurs in the
lower-cased response URL. -/
def hasKeyword (url : String) : Bool :=
  keywordList.any (fun k => strIn k (toLowerStr url))

/-- Models self.emails.update(extract_emails(response.text)). -/
def updateEmails (emails : Finset String) (content : String) : Finset String :=
  emails ∪ (extract_emails content).toFinset

/-- Models the email accumulation of one parse call: the unconditional scan,
followed by the keyword-triggered second scan of the same response text. The
first argument switches the keyword branch on or off, so that the branch can
be compared with its absence. -/
def parseEmailUpdate (keywordRescan : Bool) (url content : String)
    (emails : Finset String) : Finset String :=
  if keywordRescan && hasKeyword url then
    updateEmails (updateEmails emails content) content
  else
    updateEmails emails content

/-- Models the link normalisation of the parse callback: only references
beginning with a slash are resolved against the response URL; every other
reference is used verbatim. -/
def resolveLink (pageUrl link : String) : String :=
  if pyStartsWith link "/" then urljoin pageUrl link else link

/-- Models the acceptance test of the parse callback: after resolution, the
link is requested exactly when it starts with http, the job domain string
occurs somewhere in the link, and the link is not in visited_pages. -/
def acceptLink (allowed : String) (visited : List String) (pageUrl rawLink : String) :
    Option String :=
  if pyStartsWith (resolveLink pageUrl rawLink) "http" = true
      ∧ strIn allowed (resolveLink pageUrl rawLink) = true
      ∧ resolveLink pageUrl rawLink ∉ visited then
    some (resolveLink pageUrl rawLink)
  else
    none

/-- Models the Python str.endswith test. -/
def pyEndsWith (s suf : String) : Bool :=
  leadsWith suf.toList.reverse s.toList.reverse

/-- Modelled from the spec: the domain-scope restriction ("followed links
must resolve to the same registrable domain as the seed") is enforced by the
default OffsiteMiddleware of the framework, outside this repository; the
source configures it by setting allowed_domains in the spider initialiser
(src/email_scraper.py line 41) and by yielding requests without dont_filter
(line 59). A request passes the filter exactly when its host (the lower-cased
netloc) is non-empty and equals the scoped domain or ends in a dot followed
by the scoped domain, that is, when the host is the scoped domain or one of
its subdomains. -/
def offsiteAllowed (allowed url : String) : Bool :=
  (!(toLowerStr (netlocOf url) == "")) &&
    ((toLowerStr (netlocOf url) == toLowerStr allowed) ||
      pyEndsWith (toLowerStr (netlocOf url)) ("." ++ toLowerStr allowed))

/-- State of one crawl job: the request frontier with discovery depths, the
visited_pages set, the scheduler fingerprint set of every URL accepted into
the frontier, the accumulated email set, and the log of fetches in the order
they happened. -/
structure CrawlState where
  frontier : List (String × Nat)
  visited : List String
  scheduled : List String
  emails : Finset String
  fetched : List (String × Nat)

/-- The requests one parse call yields for a page: the links that pass the
inline acceptance test of the spider. -/
def spiderYield (web : String → Page) (allowed : String) (u : String)
    (visited : List String) : List String :=
  (web u).links.filterMap (acceptLink allowed visited u)

/-- The yielded links that survive the offsite filter. -/
def offsiteFilter (allowed : String) (ls : List String) : List String :=
  ls.filter (fun l => offsiteAllowed allowed l)

/-- Modelled from the spec: the depth gate. The DEPTH_LIMIT setting declared
in custom_settings of src/email_scraper.py is enforced by the framework
outside this repository, and the spec states that a link is accepted only
when the current depth plus one is at most the limit. -/
def depthGate (limit d : Nat) (ls : List String) : List String :=
  if d + 1 ≤ limit then ls else []

/-- Modelled from the spec: reservation at enqueue time ("accepted links are
enqueued at depth+1 and immediately marked visited"). The scheduler of the
framework, outside this repository, passes every request yielded without
dont_filter through its duplicate filter, which records a fingerprint of each
URL when it is first scheduled and drops any request whose fingerprint is
already recorded. The fingerprint is modelled as the URL string itself; the
real filter canonicalises further and so drops at least as much. Returns the
entries enqueued at depth d + 1 together with the grown fingerprint set. -/
def dupeEnqueue (d : Nat) : List String → List String → List (String × Nat) × List String
  | scheduled, [] => ([], scheduled)
  | scheduled, l :: ls =>
    if l ∈ scheduled then
      dupeEnqueue d scheduled ls
    else
      ((l, d + 1) :: (dupeEnqueue d (scheduled ++ [l]) ls).1,
        (dupeEnqueue d (scheduled ++ [l]) ls).2)

/-- One scheduling step: dequeue the first frontier entry, mark it visited,
scan it for emails (with the keyword branch), and enqueue the links it yields
after the offsite filter, the depth gate and the duplicate filter. An empty
frontier is a fixpoint. The source marks a URL visited at the start of its
parse call, after the fetch, which this step reproduces. The queue discipline
(here first-in first-out) is irrelevant to every property proved below. -/
def crawlStep (web : String → Page) (allowed : String) (limit : Nat)
    (s : CrawlState) : CrawlState :=
  match s.frontier with
  | [] => s
  | (u, d) :: rest =>
    { frontier := rest ++ (dupeEnqueue d s.scheduled (depthGate limit d
        (offsiteFilter allowed (spiderYield web allowed u (insertNew u s.visited))))).1
      visited := insertNew u s.visited
      scheduled := (dupeEnqueue d s.scheduled (depthGate limit d
        (offsiteFilter allowed (spiderYield web allowed u (insertNew u s.visited))))).2
      emails := parseEmailUpdate true u (web u).content s.emails
      fetched := s.fetched ++ [(u, d)] }

/-- Fuel-bounded iteration of the scheduling step. -/
def crawlRun (web : String → Page) (allowed : String) (limit : Nat) :
    Nat → CrawlState → CrawlState
  | 0, s => s
  | fuel + 1, s => crawlRun web allowed limit fuel (crawlStep web allowed limit s)

/-- Initial state of a job: only the seed URL at depth zero, nothing visited,
no emails, nothing fetched. The seed request is issued with dont_filter, so
the real duplicate filter neither checks nor records it; the model records it
in the fingerprint set, which is observationally equivalent because the seed
is marked visited by its own parse call - the first step of every run -
before any link acceptance test runs, so no later yield can resubmit it
either way. -/
def spiderInit (startUrl : String) : CrawlState :=
  ⟨[(startUrl, 0)], [], [startUrl], ∅, []⟩

/-- One crawl job as the spider configures it: the domain scope is computed
from the seed URL by the initialiser expression of the source. -/
def runSpider (web : String → Page) (startUrl : String) (limit fuel : Nat) : CrawlState :=
  crawlRun web (allowedDomainOf startUrl) limit fuel (spiderInit startUrl)

/-! Result aggregation of src/email_scraper.py, lines 81 to 133. -/

/-- Outcome of one Selenium job, separating the two failure points of
scrape_with_selenium: driver construction happens before the try block, so
its failure propagates, while a failure of the navigation or of reading the
page is caught inside the function. -/
inductive FetchOutcome where
  | ok (html : String)
  | fetchError (msg : String)
  | launchError (msg : String)

/-- Embeds scrape_with_selenium: a launch failure escapes as an error, a
caught fetch failure is logged and turned into an empty email list, and a
fetched page yields its extracted emails. -/
def scrape_with_selenium (f : FetchOutcome) : Except String (List String) :=
  match f with
  | .launchError m => .error m
  | .fetchError _ => .ok []
  | .ok html => .ok (extract_emails html)

/-- One row of the final table, as built by scrape_multiple_websites. The
wall-clock measurement cannot be embedded; the elapsed seconds appear as an
oracle value recorded on success, and none stands for the "N/A" cell written
on failure. -/
structure SiteResult where
  website : String
  emails : String
  timeTaken : Option Nat
deriving DecidableEq

/-- The row built for one seed URL: on success the joined emails and the
elapsed time, on an escaped exception the fixed message
"Error scraping website" and the "N/A" timing. -/
def siteRow (elapsed : String → Nat) (job : String × FetchOutcome) : SiteResult :=
  match scrape_with_selenium job.2 with
  | .ok emails => ⟨job.1, joinWith ", " emails, some (elapsed job.1)⟩
  | .error _ => ⟨job.1, "Error scraping website", none⟩

/-- Embeds scrape_multiple_websites for the Selenium strategy: each seed URL
is processed in order, a try block around the job turning an escaped
exception into the error row while the loop continues with the next seed.
The fetch behaviour of each seed is supplied alongside it. -/
def scrape_multiple_websites (jobs : List (String × FetchOutcome))
    (elapsed : String → Nat) : List SiteResult :=
  jobs.map (siteRow elapsed)

/-! The outgoing-link extractor of src/linkdin.py. -/

/-- The exclusion list of src/linkdin.py, lines 13 to 17. -/
def EXCLUDED_WEBSITES : List String :=
  ["facebook.com", "instagram.com", "twitter.com", "youtube.com", "linkedin.com",
   "forbes.com", "amazon.com", "pinterest.com", "imdb.com", "indeed.com", "moz.com",
   "quora.com", "semrush.com", "google.com", "google.org", "bbc.co.uk", ".gov"]

/-- The excluded URL fragments of src/linkdin.py, line 18. -/
def EXCLUDED_PATTERNS : List String :=
  ["#", "/contact", "/privacy", "/terms"]

/-- The domain the source computes for a URL: the netloc with every
occurrence of www. removed, exactly as str.replace does. -/
def linkDomain (u : String) : String :=
  ⟨pyRemove "www.".toList (netlocOf u).toList⟩

/-- The acceptance test of extract_links_from_page: a non-empty domain that
does not contain the page domain, contains no excluded domain, and whose full
URL contains no excluded fragment. All four tests are substring tests, as in
the source. -/
def linkAllowed (mainDomain full domain : String) : Bool :=
  (!(domain == "")) && !(strIn mainDomain domain)
    && !(EXCLUDED_WEBSITES.any (fun e => strIn e domain))
    && !(EXCLUDED_PATTERNS.any (fun p => strIn p full))

/-- Loop of extract_links_from_page over the anchor list, accumulating the
normalised entries. The source accumulates into a Python set; the accumulator
here keeps first-insertion order, which preserves membership and
duplicate-freeness. -/
def extractLinksAux (url mainDomain : String) : List String → List String → List String
  | [], acc => acc
  | link :: rest, acc =>
    if linkAllowed mainDomain (urljoin url link) (linkDomain (urljoin url link)) = true then
      extractLinksAux url mainDomain rest
        (insertNew ("https://" ++ linkDomain (urljoin url link) ++ "/") acc)
    else
      extractLinksAux url mainDomain rest acc

/-- Embeds extract_links_from_page of src/linkdin.py as a pure function of
the page URL and the anchor href values read from the rendered page; the
driver management and the warning path of the source are I/O around this
computation. -/
def extract_links_from_page (url : String) (anchors : List String) : List String :=
  extractLinksAux url (linkDomain url) anchors []

/-- Leading-strip variant of domain cleaning, following the wording of the
claim being checked ("with leading www. stripped"); the source instead
removes every occurrence. Kept only to compare the two readings. -/
def stripLeadingWWW (s : String) : String :=
  if pyStartsWith s "www." then ⟨s.toList.drop 4⟩ else s

/-! The batch pipeline of src/linkdin.py, lines 70 to 80 and 141 to 171. -/

/-- Embeds process_urls_concurrently: the futures are created in a dict
comprehension over the URL list and the result dict is filled by iterating
that dict, so the keys appear in submission order no matter when each future
completes. The per-URL link extraction is abstracted as a function. -/
def process_urls_concurrently (linksOf : String → List String)
    (urls : List String) : List (String × List String) :=
  urls.map (fun u => (u, linksOf u))

/-- Models urls = list(set(urls)) in main of src/linkdin.py: duplicates are
removed and the order becomes the iteration order of a Python set, which is
unspecified; dedup is used as one canonical choice. Which order the set takes
does not matter to the facts proved below, because removing a duplicate
already changes the row count. -/
def linkdinMainUrls (urls : List String) : List String :=
  urls.dedup

/-- The linkdin batch pipeline from input URL list to ordered results. -/
def linkdinPipeline (linksOf : String → List String)
    (urls : List String) : List (String × List String) :=
  process_urls_concurrently linksOf (linkdinMainUrls urls)

/-! Concrete web fixtures used by the counterexamples and witnesses. -/

/-- A site whose seed page links to a page on a subdomain of the origin. -/
def webSub : String → Page := fun u =>
  if u = "https://example.com/" then
    ⟨"", ["https://blog.example.com/"]⟩
  else
    ⟨"", []⟩

/-- A three-page chain: the seed links to page b, which links to page c. -/
def webChain : String → Page := fun u =>
  if u = "https://example.com/" then
    ⟨"", ["https://example.com/b"]⟩
  else if u = "https://example.com/b" then
    ⟨"", ["https://example.com/c"]⟩
  else
    ⟨"", []⟩

/-! Helper lemmas. -/

theorem leadsWith_self : ∀ l : List Char, leadsWith l l = true
  | [] => rfl
  | c :: rest => by simp [leadsWith, leadsWith_self rest]

theorem occursIn_self (l : List Char) : occursIn l l = true := by
  cases l with
  | nil => rfl
  | cons c rest => simp [occursIn, leadsWith_self]

theorem strIn_self (s : String) : strIn s s = true :=
  occursIn_self s.toList

theorem mem_insertNew {α : Type} [DecidableEq α] (x y : α) (l : List α) :
    x ∈ insertNew y l ↔ x = y ∨ x ∈ l := by
  unfold insertNew
  split
  · next h =>
    constructor
    · exact Or.inr
    · rintro (rfl | hx)
      · exact h
      · exact hx
  · simp [List.mem_append, or_comm]

theorem self_mem_insertNew {α : Type} [DecidableEq α] (y : α) (l : List α) :
    y ∈ insertNew y l :=
  (mem_insertNew y y l).mpr (Or.inl rfl)

theorem nodup_insertNew {α : Type} [DecidableEq α] (y : α) (l : List α)
    (h : l.Nodup) : (insertNew y l).Nodup := by
  unfold insertNew
  split
  · exact h
  · next hy => simp [List.nodup_append, h, hy]

theorem acceptLink_some (allowed : String) (visited : List String)
    (pageUrl rawLink link : String)
    (h : acceptLink allowed visited pageUrl rawLink = some link) :
    pyStartsWith link "http" = true ∧ strIn allowed link = true ∧ link ∉ visited := by
  unfold acceptLink at h
  split at h
  · next hc =>
    cases h
    exact hc
  · cases h

theorem mem_spiderYield (web : String → Page) (allowed : String) (u : String)
    (visited : List String) (l : String) (hl : l ∈ spiderYield web allowed u visited) :
    ∃ r ∈ (web u).links, acceptLink allowed visited u r = some l := by
  unfold spiderYield at hl
  simp only [List.mem_filterMap] at hl
  exact hl

theorem mem_offsiteFilter (allowed : String) (ls : List String) (l : String)
    (hl : l ∈ offsiteFilter allowed ls) : l ∈ ls ∧ offsiteAllowed allowed l = true := by
  unfold offsiteFilter at hl
  exact List.mem_filter.mp hl

theorem mem_depthGate (limit d : Nat) (ls : List String) (l : String)
    (hl : l ∈ depthGate limit d ls) : l ∈ ls ∧ d + 1 ≤ limit := by
  unfold depthGate at hl
  split at hl
  · next hle => exact ⟨hl, hle⟩
  · cases hl

theorem dupeEnqueue_spec (d : Nat) :
    ∀ (ls scheduled : List String),
      ((dupeEnqueue d scheduled ls).1.map Prod.fst).Nodup ∧
      (∀ p ∈ (dupeEnqueue d scheduled ls).1, p.2 = d + 1 ∧ p.1 ∈ ls ∧ p.1 ∉ scheduled) ∧
      (∀ x ∈ scheduled, x ∈ (dupeEnqueue d scheduled ls).2) ∧
      (∀ p ∈ (dupeEnqueue d scheduled ls).1, p.1 ∈ (dupeEnqueue d scheduled ls).2) := by
  intro ls
  induction ls with
  | nil =>
    intro scheduled
    simp [dupeEnqueue]
  | cons l ls ih =>
    intro scheduled
    by_cases hl : l ∈ scheduled
    · simp only [dupeEnqueue, if_pos hl]
      obtain ⟨a, b, c, e⟩ := ih scheduled
      exact ⟨a, fun p hp => ⟨(b p hp).1, List.mem_cons_of_mem _ (b p hp).2.1,
        (b p hp).2.2⟩, c, e⟩
    · simp only [dupeEnqueue, if_neg hl]
      obtain ⟨a, b, c, e⟩ := ih (scheduled ++ [l])
      refine ⟨?_, ?_, ?_, ?_⟩
      · simp only [List.map_cons, List.nodup_cons]
        refine ⟨?_, a⟩
        intro hmem
        rcases List.mem_map.mp hmem with ⟨p, hp, heq⟩
        exact (b p hp).2.2 (List.mem_append.mpr (Or.inr (by simp [heq])))
      · intro p hp
        rcases List.mem_cons.mp hp with rfl | hp2
        · exact ⟨rfl, List.mem_cons_self _ _, hl⟩
        · exact ⟨(b p hp2).1, List.mem_cons_of_mem _ (b p hp2).2.1,
            fun hmem => (b p hp2).2.2 (List.mem_append.mpr (Or.inl hmem))⟩
      · intro x hx
        exact c x (List.mem_append.mpr (Or.inl hx))
      · intro p hp
        rcases List.mem_cons.mp hp with rfl | hp2
        · exact c l (List.mem_append.mpr (Or.inr (List.mem_singleton_self l)))
        · exact e p hp2

theorem mem_enqueued (web : String → Page) (allowed : String) (limit : Nat)
    (u : String) (d : Nat) (scheduled visited : List String) (p : String × Nat)
    (hp : p ∈ (dupeEnqueue d scheduled (depthGate limit d
      (offsiteFilter allowed (spiderYield web allowed u visited)))).1) :
    p.2 = d + 1 ∧ d + 1 ≤ limit ∧ offsiteAllowed allowed p.1 = true ∧
      p.1 ∉ scheduled ∧ ∃ r ∈ (web u).links, acceptLink allowed visited u r = some p.1 := by
  obtain ⟨hd2, hls, hsched⟩ := (dupeEnqueue_spec d _ scheduled).2.1 p hp
  obtain ⟨hls2, hle⟩ := mem_depthGate _ _ _ _ hls
  obtain ⟨hls3, hoff⟩ := mem_offsiteFilter _ _ _ hls2
  exact ⟨hd2, hle, hoff, hsched, mem_spiderYield _ _ _ _ _ hls3⟩

theorem crawlRun_succ (web : String → Page) (allowed : String) (limit n : Nat)
    (s : CrawlState) :
    crawlRun web allowed limit (n + 1) s
      = crawlRun web allowed limit n (crawlStep web allowed limit s) := rfl

theorem crawlStep_cons (web : String → Page) (allowed : String) (limit : Nat)
    (u : String) (d : Nat) (rest : List (String × Nat)) (v sched : List String)
    (e : Finset String) (f : List (String × Nat)) :
    crawlStep web allowed limit ⟨(u, d) :: rest, v, sched, e, f⟩
      = ⟨rest ++ (dupeEnqueue d sched (depthGate limit d
            (offsiteFilter allowed (spiderYield web allowed u (insertNew u v))))).1,
         insertNew u v,
         (dupeEnqueue d sched (depthGate limit d
            (offsiteFilter allowed (spiderYield web allowed u (insertNew u v))))).2,
         parseEmailUpdate true u (web u).content e, f ++ [(u, d)]⟩ := rfl

theorem crawlRun_inv (web : String → Page) (allowed : String) (limit : Nat)
    (P : String × Nat → Prop)
    (hnew : ∀ visited u r l d, acceptLink allowed visited u r = some l →
      offsiteAllowed allowed l = true → d + 1 ≤ limit → P (l, d + 1)) :
    ∀ (fuel : Nat) (s : CrawlState),
      (∀ p ∈ s.frontier, P p) → (∀ p ∈ s.fetched, P p) →
      (∀ p ∈ (crawlRun web allowed limit fuel s).frontier, P p) ∧
      (∀ p ∈ (crawlRun web allowed limit fuel s).fetched, P p) := by
  intro fuel
  induction fuel with
  | zero => intro s hf hd; exact ⟨hf, hd⟩
  | succ n ih =>
    intro s hf hd
    obtain ⟨fr, v, sched, e, f⟩ := s
    rw [crawlRun_succ]
    cases fr with
    | nil => exact ih _ hf hd
    | cons p rest =>
      obtain ⟨u, d⟩ := p
      rw [crawlStep_cons]
      apply ih
      · intro q hq
        rcases List.mem_append.mp hq with h | h
        · exact hf q (List.mem_cons_of_mem _ h)
        · obtain ⟨h2, hle, hoff, -, r, hr, ha⟩ := mem_enqueued _ _ _ _ _ _ _ _ h
          obtain ⟨q1, q2⟩ := q
          simp only at h2
          subst h2
          exact hnew _ _ _ _ _ ha hoff hle
      · intro q hq
        rcases List.mem_append.mp hq with h | h
        · exact hd q h
        · simp only [List.mem_singleton] at h
          subst h
          exact hf (u, d) (List.mem_cons_self _ _)

/-- The single compound invariant that delivers at-most-once fetching: the
fetch log has pairwise distinct URLs, the frontier has pairwise distinct URLs
disjoint from the fetch log, every fetched URL is visited, and every frontier
URL is recorded in the scheduler fingerprint set. -/
def CrawlInv (s : CrawlState) : Prop :=
  (s.fetched.map Prod.fst).Nodup ∧
  (s.frontier.map Prod.fst).Nodup ∧
  (∀ x ∈ s.frontier.map Prod.fst, x ∉ s.fetched.map Prod.fst) ∧
  (∀ x ∈ s.fetched.map Prod.fst, x ∈ s.visited) ∧
  (∀ x ∈ s.frontier.map Prod.fst, x ∈ s.scheduled)

theorem crawlStep_inv (web : String → Page) (allowed : String) (limit : Nat)
    (s : CrawlState) (h : CrawlInv s) : CrawlInv (crawlStep web allowed limit s) := by
  obtain ⟨fr, v, sched, e, f⟩ := s
  obtain ⟨h1, h2, h3, h4, h5⟩ := h
  cases fr with
  | nil => exact ⟨h1, h2, h3, h4, h5⟩
  | cons p rest =>
    obtain ⟨u, d⟩ := p
    rw [crawlStep_cons]
    simp only [List.map_cons, List.nodup_cons] at h2
    have hu_fetched : u ∉ List.map Prod.fst f :=
      h3 u (by simp)
    have hQ := dupeEnqueue_spec d (depthGate limit d
      (offsiteFilter allowed (spiderYield web allowed u (insertNew u v)))) sched
    have hQnotv : ∀ p ∈ (dupeEnqueue d sched (depthGate limit d
        (offsiteFilter allowed (spiderYield web allowed u (insertNew u v))))).1,
        p.1 ∉ insertNew u v := by
      intro p hp
      obtain ⟨-, -, -, -, r, -, ha⟩ := mem_enqueued _ _ _ _ _ _ _ _ hp
      exact (acceptLink_some _ _ _ _ _ ha).2.2
    refine ⟨?_, ?_, ?_, ?_, ?_⟩
    · simp only [List.map_append, List.map_cons, List.map_nil, List.nodup_append,
        List.nodup_cons, List.nodup_nil]
      exact ⟨h1, ⟨by simp, trivial⟩, by
        intro x hx
        simp only [List.mem_singleton]
        intro heq
        subst heq
        exact hu_fetched hx⟩
    · simp only [List.map_append, List.nodup_append]
      refine ⟨h2.2, hQ.1, ?_⟩
      intro x hx
      have hxs := h5 x (by simp [hx])
      intro hx2
      rcases List.mem_map.mp hx2 with ⟨p, hp, heq⟩
      exact (hQ.2.1 p hp).2.2 (heq ▸ hxs)
    · intro x hx
      simp only [List.map_append, List.mem_append] at hx
      simp only [List.map_append, List.map_cons, List.map_nil, List.mem_append,
        List.mem_singleton]
      rintro (hxf | rfl)
      · rcases hx with hx | hx
        · exact h3 x (by simp [hx]) hxf
        · rcases List.mem_map.mp hx with ⟨p, hp, heq⟩
          exact hQnotv p hp (heq ▸ (mem_insertNew _ _ _).mpr (Or.inr (h4 x hxf)))
      · rcases hx with hx | hx
        · exact h2.1 hx
        · rcases List.mem_map.mp hx with ⟨p, hp, heq⟩
          exact hQnotv p hp (heq ▸ self_mem_insertNew x v)
    · intro x hx
      simp only [List.map_append, List.map_cons, List.map_nil, List.mem_append,
        List.mem_singleton] at hx
      rcases hx with hx | rfl
      · exact (mem_insertNew _ _ _).mpr (Or.inr (h4 x hx))
      · exact self_mem_insertNew x v
    · intro x hx
      simp only [List.map_append, List.mem_append] at hx
      rcases hx with hx | hx
      · exact hQ.2.2.1 x (h5 x (by simp [hx]))
      · rcases List.mem_map.mp hx with ⟨p, hp, heq⟩
        exact heq ▸ hQ.2.2.2 p hp

theorem crawlRun_keeps_inv (web : String → Page) (allowed : String) (limit : Nat) :
    ∀ (fuel : Nat) (s : CrawlState), CrawlInv s →
      CrawlInv (crawlRun web allowed limit fuel s) := by
  intro fuel
  induction fuel with
  | zero => intro s h; exact h
  | succ n ih =>
    intro s h
    rw [crawlRun_succ]
    exact ih _ (crawlStep_inv web allowed limit s h)

theorem string_data_append (a b : String) : (a ++ b).data = a.data ++ b.data := rfl

theorem entry_domain_inj (d e : String)
    (h : "https://" ++ d ++ "/" = "https://" ++ e ++ "/") : d = e := by
  have h2 : ("https://".data ++ d.data) ++ "/".data
      = ("https://".data ++ e.data) ++ "/".data := congrArg String.data h
  have h3 := List.append_cancel_right h2
  have h4 := List.append_cancel_left h3
  cases d
  cases e
  exact congrArg String.mk h4

theorem mem_extractLinksAux (url mainDomain : String) :
    ∀ (anchors acc : List String) (out : String),
      out ∈ extractLinksAux url mainDomain anchors acc →
      out ∈ acc ∨ ∃ link ∈ anchors,
        out = "https://" ++ linkDomain (urljoin url link) ++ "/" ∧
        linkAllowed mainDomain (urljoin url link) (linkDomain (urljoin url link)) = true := by
  intro anchors
  induction anchors with
  | nil => intro acc out h; exact Or.inl h
  | cons a rest ih =>
    intro acc out h
    unfold extractLinksAux at h
    split at h
    · next hallow =>
      rcases ih _ out h with h2 | ⟨link, hl, h3⟩
      · rcases (mem_insertNew _ _ _).mp h2 with h3 | h3
        · exact Or.inr ⟨a, List.mem_cons_self _ _, h3, hallow⟩
        · exact Or.inl h3
      · exact Or.inr ⟨link, List.mem_cons_of_mem _ hl, h3⟩
    · rcases ih _ out h with h2 | ⟨link, hl, h3⟩
      · exact Or.inl h2
      · exact Or.inr ⟨link, List.mem_cons_of_mem _ hl, h3⟩

theorem nodup_extractLinksAux (url mainDomain : String) :
    ∀ (anchors acc : List String), acc.Nodup →
      (extractLinksAux url mainDomain anchors acc).Nodup := by
  intro anchors
  induction anchors with
  | nil => intro acc h; exact h
  | cons a rest ih =>
    intro acc h
    unfold extractLinksAux
    split
    · exact ih _ (nodup_insertNew _ _ h)
    · exact ih _ h

theorem linkAllowed_parts (mainDomain full domain : String)
    (h : linkAllowed mainDomain full domain = true) :
    domain ≠ "" ∧ strIn mainDomain domain = false ∧
      (∀ ex ∈ EXCLUDED_WEBSITES, strIn ex domain = false) ∧
      (∀ pat ∈ EXCLUDED_PATTERNS, strIn pat full = false) := by
  unfold linkAllowed at h
  simp only [Bool.and_eq_true, Bool.not_eq_true', beq_eq_false_iff_ne, ne_eq,
    List.any_eq_false, Bool.not_eq_true] at h
  exact ⟨h.1.1.1, h.1.1.2, h.1.2, h.2⟩

theorem notMem_extractLinksAux (url mainDomain dd : String)
    (hbad : strIn mainDomain dd = true ∨ ∃ ex ∈ EXCLUDED_WEBSITES, strIn ex dd = true) :
    ∀ (anchors acc : List String), ("https://" ++ dd ++ "/") ∉ acc →
      ("https://" ++ dd ++ "/") ∉ extractLinksAux url mainDomain anchors acc := by
  intro anchors
  induction anchors with
  | nil => intro acc h; exact h
  | cons a rest ih =>
    intro acc hacc
    unfold extractLinksAux
    split
    · next hallow =>
      apply ih
      intro hmem
      rcases (mem_insertNew _ _ _).mp hmem with heq | hmem2
      · have hde := entry_domain_inj _ _ heq
        obtain ⟨-, hmain, hexcl, -⟩ := linkAllowed_parts _ _ _ hallow
        rw [← hde] at hmain hexcl
        rcases hbad with hb | ⟨ex, hex, hb⟩
        · rw [hmain] at hb
          cases hb
        · rw [hexcl ex hex] at hb
          cases hb
      · exact hacc hmem2
    · exact ih _ hacc

/-! Claim theorems. -/

/-- C1: no URL is fetched more than once within a job. Two mechanisms
together deliver the reservation: the spider marks a page visited when it
parses it and refuses to yield already-visited links, and the scheduler
duplicate filter records a fingerprint of every URL at the moment it is
accepted into the frontier and drops any later request for it - so no URL
already enqueued or dequeued is ever requested again, even when the same link
is discovered from two pages. The fetch log of any run from the seed
therefore carries pairwise distinct URLs. -/
theorem c1_no_url_fetched_twice (web : String → Page) (startUrl : String)
    (limit fuel : Nat) :
    ((runSpider web startUrl limit fuel).fetched.map Prod.fst).Nodup := by
  refine (crawlRun_keeps_inv web (allowedDomainOf startUrl) limit fuel
    (spiderInit startUrl) ⟨List.nodup_nil, ?_, ?_, ?_, ?_⟩).1
  · simp [spiderInit]
  · simp [spiderInit]
  · simp [spiderInit]
  · simp [spiderInit]

/-- C2, counterexample: the claim says a link is accepted only when its
domain equals the scoped domain of the job, and that no link with a differing
domain is ever followed. A link on a subdomain of the origin passes both the
inline substring test of the spider and the offsite filter (which admits the
scoped domain and its subdomains), so the crawl fetches a URL whose domain
differs from the scoped domain. -/
theorem c2_subdomain_followed_counterexample :
    (runSpider webSub "https://example.com/" 3 3).fetched.map Prod.fst
        = ["https://example.com/", "https://blog.example.com/"] ∧
    netlocOf "https://blog.example.com/" ≠ allowedDomainOf "https://example.com/" :=
  ⟨by decide, by decide⟩

/-- C2, amended: every URL the job fetches is either the seed or a link that,
after resolving slash-prefixed references against the fetching page, starts
with http, contains the scoped domain string of the job as a substring of the
whole URL (the inline spider test), and has a host equal to the scoped domain
or to one of its subdomains (the offsite filter); the depth gate is the
framework DEPTH_LIMIT setting as stated by the spec. Domain equality is not
guaranteed: a subdomain host can be followed. -/
theorem c2_fetched_contain_allowed (web : String → Page) (startUrl : String)
    (limit fuel : Nat) :
    ∀ p ∈ (runSpider web startUrl limit fuel).fetched,
      p.1 = startUrl ∨ (pyStartsWith p.1 "http" = true ∧
        strIn (allowedDomainOf startUrl) p.1 = true ∧
        offsiteAllowed (allowedDomainOf startUrl) p.1 = true) := by
  intro p hp
  refine ((crawlRun_inv web (allowedDomainOf startUrl) limit
      (fun q => q.1 = startUrl ∨ (pyStartsWith q.1 "http" = true ∧
        strIn (allowedDomainOf startUrl) q.1 = true ∧
        offsiteAllowed (allowedDomainOf startUrl) q.1 = true))
      (fun visited u r l d ha hoff _ => Or.inr
        ⟨(acceptLink_some _ _ _ _ _ ha).1, (acceptLink_some _ _ _ _ _ ha).2.1, hoff⟩)
      fuel (spiderInit startUrl) ?_ ?_).2 p hp)
  · intro q hq
    simp only [spiderInit, List.mem_singleton] at hq
    subst hq
    exact Or.inl rfl
  · intro q hq
    simp [spiderInit] at hq

/-- C2, witness: the amended invariant at the concrete subdomain fetch. -/
theorem c2_fetched_contain_allowed_witness :
    (("https://blog.example.com/", 1) : String × Nat)
        ∈ (runSpider webSub "https://example.com/" 3 3).fetched ∧
    ((("https://blog.example.com/", 1) : String × Nat).1 = "https://example.com/" ∨
      (pyStartsWith (("https://blog.example.com/", 1) : String × Nat).1 "http" = true ∧
        strIn (allowedDomainOf "https://example.com/")
          (("https://blog.example.com/", 1) : String × Nat).1 = true ∧
        offsiteAllowed (allowedDomainOf "https://example.com/")
          (("https://blog.example.com/", 1) : String × Nat).1 = true)) :=
  ⟨by decide, c2_fetched_contain_allowed webSub "https://example.com/" 3 3 _ (by decide)⟩

/-- C3, counterexample: the claim says the recorded domain is the netloc with
a leading www. stripped. The source removes every occurrence of www. via
str.replace, so an anchor on awww.example.com is recorded under the mangled
domain aexample.com, not under the leading-stripped netloc. -/
theorem c3_leading_www_counterexample :
    extract_links_from_page "https://site.org/" ["https://awww.example.com/page"]
        = ["https://aexample.com/"] ∧
    stripLeadingWWW (netlocOf "https://awww.example.com/page") = "awww.example.com" ∧
    ("https://aexample.com/" : String)
      ≠ "https://" ++ stripLeadingWWW (netlocOf "https://awww.example.com/page") ++ "/" :=
  ⟨by decide, by decide, by decide⟩

/-- C3, amended: with the domain computed as the netloc with every occurrence
of www. removed, the extractor output is duplicate-free and every entry comes
from some anchor, has the normalised https domain-slash form, and satisfies
the claimed necessary conditions: its domain is non-empty, differs from the
page domain, equals no entry of the exclusion list, and its absolute URL
contains none of the excluded fragments. -/
theorem c3_extract_links_sound (url : String) (anchors : List String) :
    (extract_links_from_page url anchors).Nodup ∧
    ∀ out ∈ extract_links_from_page url anchors,
      ∃ link ∈ anchors,
        out = "https://" ++ linkDomain (urljoin url link) ++ "/" ∧
        linkDomain (urljoin url link) ≠ "" ∧
        linkDomain (urljoin url link) ≠ linkDomain url ∧
        (∀ ex ∈ EXCLUDED_WEBSITES, linkDomain (urljoin url link) ≠ ex) ∧
        (∀ pat ∈ EXCLUDED_PATTERNS, strIn pat (urljoin url link) = false) := by
  constructor
  · exact nodup_extractLinksAux url (linkDomain url) anchors [] List.nodup_nil
  · intro out hout
    rcases mem_extractLinksAux url (linkDomain url) anchors [] out hout with h | ⟨link, hl, hform, hallow⟩
    · cases h
    · obtain ⟨hne, hmain, hexcl, hpat⟩ := linkAllowed_parts _ _ _ hallow
      refine ⟨link, hl, hform, hne, ?_, ?_, hpat⟩
      · intro heq
        rw [heq] at hmain
        rw [strIn_self] at hmain
        cases hmain
      · intro ex hex heq
        have := hexcl ex hex
        rw [heq] at this
        rw [strIn_self] at this
        cases this

/-- C3, witness: the amended soundness statement at a concrete accepted
outgoing link. -/
theorem c3_extract_links_sound_witness :
    ("https://partner.org/" : String)
        ∈ extract_links_from_page "https://example.com/" ["https://partner.org/page"] ∧
    ∃ link ∈ ["https://partner.org/page"],
      ("https://partner.org/" : String)
          = "https://" ++ linkDomain (urljoin "https://example.com/" link) ++ "/" ∧
      linkDomain (urljoin "https://example.com/" link) ≠ "" ∧
      linkDomain (urljoin "https://example.com/" link) ≠ linkDomain "https://example.com/" ∧
      (∀ ex ∈ EXCLUDED_WEBSITES, linkDomain (urljoin "https://example.com/" link) ≠ ex) ∧
      (∀ pat ∈ EXCLUDED_PATTERNS, strIn pat (urljoin "https://example.com/" link) = false) :=
  ⟨by decide,
    (c3_extract_links_sound "https://example.com/" ["https://partner.org/page"]).2 _ (by decide)⟩

/-- C4, counterexample: the claim says a job whose fetch always times out is
recorded with status error and N/A timing. A timeout is raised by the
navigation inside the try block of scrape_with_selenium, is caught there and
becomes an empty email list, so the batch records an ok row with an elapsed
time and empty extracted values for that seed. -/
theorem c4_timeout_marked_ok_counterexample :
    (scrape_multiple_websites
        [("https://x.com/", FetchOutcome.fetchError "timeout"),
         ("https://y.com/", FetchOutcome.ok "mail a@b.org end")] (fun _ => 7)).map
        (fun r => (r.emails, r.timeTaken))
      = [("", some 7), ("a@b.org", some 7)] ∧
    (("" : String), (some 7 : Option Nat)) ≠ ("Error scraping website", (none : Option Nat)) :=
  ⟨by decide, by decide⟩

/-- C4, amended: a job whose driver launch fails (the exception raised before
the try block, which escapes scrape_with_selenium) is recorded with the fixed
message "Error scraping website" and the N/A timing while every other seed of
the batch is still processed in place; a fetch failure after launch, such as
a timeout, is caught inside scrape_with_selenium and yields an ok row with
empty extracted values and an elapsed time. -/
theorem c4_error_isolation (pre post : List (String × FetchOutcome)) (url m : String)
    (elapsed : String → Nat) :
    scrape_multiple_websites (pre ++ (url, FetchOutcome.launchError m) :: post) elapsed
      = scrape_multiple_websites pre elapsed
        ++ ⟨url, "Error scraping website", none⟩ :: scrape_multiple_websites post elapsed ∧
    ∀ u2 m2, scrape_multiple_websites [(u2, FetchOutcome.fetchError m2)] elapsed
      = [⟨u2, "", some (elapsed u2)⟩] := by
  constructor
  · simp [scrape_multiple_websites, siteRow, scrape_with_selenium]
  · intro u2 m2
    rfl

/-- C5: every fetched URL of a job carries a discovery depth of at most the
configured depth limit; in particular no URL at depth limit plus one is ever
fetched. The seed starts at depth zero and the enqueue gate admits depth
d + 1 only when it is at most the limit. -/
theorem c5_fetched_depth_le_limit (web : String → Page) (startUrl : String)
    (limit fuel : Nat) :
    ∀ p ∈ (runSpider web startUrl limit fuel).fetched, p.2 ≤ limit := by
  intro p hp
  refine ((crawlRun_inv web (allowedDomainOf startUrl) limit (fun q => q.2 ≤ limit)
      (fun visited u r l d _ _ hle => hle) fuel (spiderInit startUrl) ?_ ?_).2 p hp)
  · intro q hq
    simp only [spiderInit, List.mem_singleton] at hq
    subst hq
    exact Nat.zero_le limit
  · intro q hq
    simp [spiderInit] at hq

/-- C5, witness: the scenario with depth limit one where the seed links to
page b which links to page c; page b is fetched at depth one, within the
limit (and the run fetches exactly the seed and page b, never page c). -/
theorem c5_fetched_depth_le_limit_witness :
    (("https://example.com/b", 1) : String × Nat)
        ∈ (runSpider webChain "https://example.com/" 1 4).fetched ∧
    (("https://example.com/b", 1) : String × Nat).2 ≤ 1 :=
  ⟨by decide, c5_fetched_depth_le_limit webChain "https://example.com/" 1 4 _ (by decide)⟩

/-- C6: the email extractor is idempotent at the level of the accumulated
set: updating a set with the extraction of the same content twice equals
updating it once, and the extracted list itself contains no duplicates. -/
theorem c6_email_update_idempotent (emails : Finset String) (content : String) :
    updateEmails (updateEmails emails content) content = updateEmails emails content ∧
    (extract_emails content).Nodup := by
  constructor
  · simp [updateEmails, Finset.union_assoc]
  · exact List.nodup_dedup _

/-- C7: on the scenario text the extractor returns exactly the two addresses,
case preserved and deduplicated by exact string equality, and the result is
duplicate-free. -/
theorem c7_scenario_a :
    (extract_emails "Contact: info@example.com and SALES@Example.com").toFinset
        = {"info@example.com", "SALES@Example.com"} ∧
    (extract_emails "Contact: info@example.com and SALES@Example.com").Nodup :=
  ⟨by decide, by decide⟩

/-- C8, counterexample: the claim says the final rows always follow the seed
list supplied by the caller. The linkdin main routes the seed list through
list(set(urls)) before processing, so a batch with a repeated seed loses a
row and the remaining order is the set order, not the caller order. -/
theorem c8_linkdin_order_counterexample :
    (linkdinPipeline (fun _ => []) ["https://a.com/", "https://b.com/", "https://a.com/"]).map
        Prod.fst
      = ["https://b.com/", "https://a.com/"] ∧
    (["https://b.com/", "https://a.com/"] : List String)
      ≠ ["https://a.com/", "https://b.com/", "https://a.com/"] :=
  ⟨by decide, by decide⟩

/-- C8, amended: the email-scraper batch produces exactly one row per seed in
the caller order, independent of completion timing, while the linkdin batch
produces its rows in the order of the deduplicated seed list (duplicates
collapsed by the set pass in main), with assembly in submission order
independent of completion order. -/
theorem c8_result_order (jobs : List (String × FetchOutcome)) (elapsed : String → Nat)
    (linksOf : String → List String) (urls : List String) :
    (scrape_multiple_websites jobs elapsed).map SiteResult.website = jobs.map Prod.fst ∧
    (linkdinPipeline linksOf urls).map Prod.fst = linkdinMainUrls urls := by
  constructor
  · induction jobs with
    | nil => rfl
    | cons j rest ih =>
      obtain ⟨u, f⟩ := j
      cases f <;>
        simpa [scrape_multiple_websites, siteRow, scrape_with_selenium] using ih
  · rw [linkdinPipeline, process_urls_concurrently, linkdinMainUrls, List.map_map]
    exact List.map_id urls.dedup

/-- C9: for a page whose URL contains one of the keywords, running the parse
accumulation with the keyword-triggered second scan yields exactly the email
set produced without that branch: the re-scan of the same content adds
nothing to a set already updated with it. -/
theorem c9_keyword_rescan_no_effect (url content : String) (emails : Finset String)
    (h : hasKeyword url = true) :
    parseEmailUpdate true url content emails = parseEmailUpdate false url content emails := by
  simp [parseEmailUpdate, h, updateEmails, Finset.union_assoc]

/-- C9, witness: a concrete contact page URL satisfying the keyword test. -/
theorem c9_keyword_rescan_no_effect_witness :
    hasKeyword "https://example.com/contact" = true ∧
    parseEmailUpdate true "https://example.com/contact" "hi a@b.org" ∅
      = parseEmailUpdate false "https://example.com/contact" "hi a@b.org" ∅ :=
  ⟨by decide, c9_keyword_rescan_no_effect "https://example.com/contact" "hi a@b.org" ∅ (by decide)⟩

/-- C10: exclusion in the outgoing-link extractor is by substring
containment, not equality: no entry whose domain contains the page domain as
a substring (in particular every subdomain of the origin, and any unrelated
domain merely containing it), and no entry whose domain contains an
exclusion-list entry as a substring, ever appears in the result. -/
theorem c10_substring_exclusion (url : String) (anchors : List String) (dd : String)
    (hbad : strIn (linkDomain url) dd = true ∨
      ∃ ex ∈ EXCLUDED_WEBSITES, strIn ex dd = true) :
    ("https://" ++ dd ++ "/") ∉ extract_links_from_page url anchors :=
  notMem_extractLinksAux url (linkDomain url) dd hbad anchors [] (List.not_mem_nil _)

/-- C10, witness: a subdomain of the origin is excluded even though it does
not equal the origin domain. -/
theorem c10_substring_exclusion_witness :
    (strIn (linkDomain "https://example.com/") "sub.example.com" = true ∨
      ∃ ex ∈ EXCLUDED_WEBSITES, strIn ex "sub.example.com" = true) ∧
    ("https://" ++ "sub.example.com" ++ "/")
      ∉ extract_links_from_page "https://example.com/" ["https://sub.example.com/x"] :=
  ⟨Or.inl (by decide),
    c10_substring_exclusion "https://example.com/" ["https://sub.example.com/x"]
      "sub.example.com" (Or.inl (by decide))⟩
